import Mathlib

/-!
Verification of the elyra metadata store (src/elyra/metadata/metadata.py).

The Python module is embedded shallowly:
  * JSON payloads become the inductive `JsonValue`; a parsed document file
    becomes `DocJson` (each field is `Option` to model key presence).
  * The process filesystem visible to the store becomes `FS`: the writable
    metadata directory (`jupyter_data_dir()/metadata/<ns>`) followed by the
    remaining `jupyter_path` search directories.  Directory entries can never
    contain a path separator, so a resource path is the structured pair
    `ResPath` (directory, file name); `os.path.basename` of such a joined
    path is the file name and `os.path.endswith` of the joined path agrees
    with the file-name test (".json" contains no separator).
  * Exceptions become the `PyErr` sum; fallible operations return `Except`,
    and mutating operations (`save`, `remove`) return the updated `FS`
    together with their outcome.
  * `jsonschema.validate` with a concrete schema is external to this module;
    a schema is therefore modelled as a boolean predicate on the parsed
    document (`Schema.check`), the validation contract the module relies on.
  * `os.listdir` order is unspecified; the model commits to one enumeration
    order per directory (newly written files are enumerated first).
-/

namespace ElyraMeta

/-- A JSON value, for the arbitrary `metadata` payload mapping. -/
inductive JsonValue where
  | null : JsonValue
  | bool (b : Bool) : JsonValue
  | num (z : Int) : JsonValue
  | str (s : String) : JsonValue
  | arr (xs : List JsonValue) : JsonValue
  | obj (kvs : List (String × JsonValue)) : JsonValue

/-- The `metadata` payload: a JSON object's key/value pairs. -/
abbrev MetaDict := List (String × JsonValue)

/-- A resource path `os.path.join(dir, fname)`: directory entries contain no
path separator, so the join is kept structured. -/
structure ResPath where
  dir : String
  fname : String
deriving DecidableEq

/-- The Python exceptions raised by the module. -/
inductive PyErr where
  | valueError (msg : String) : PyErr
  | attributeError (msg : String) : PyErr
  | keyError (msg : String) : PyErr
  | validationError (msg : String) : PyErr
  | jsonDecodeError (msg : String) : PyErr
  | ioError (msg : String) : PyErr

/-- `DEFAULT_SCHEMA_NAME = 'kfp'` (metadata.py line 31). -/
def DEFAULT_SCHEMA_NAME : String := "kfp"

/-- The in-memory `Metadata` object (metadata.py lines 34-52): `name`,
`resource` and `reason` default to `None`; `display_name`, `schema_name` and
the `metadata` payload are always set. -/
structure Metadata where
  name : Option String
  resource : Option ResPath
  display_name : String
  schema_name : String
  metadata : MetaDict
  reason : Option String

/-- A parsed document file: each key of the JSON object is optional.
`dict.get(k)` is the field itself, `dict[k]` raises `KeyError` on `none`. -/
structure DocJson where
  display_name : Option String
  schema_name : Option String
  metadata : Option MetaDict
  name : Option String
  resource : Option ResPath
  reason : Option String

/-- Python string truthiness for optional serialized fields: `None` and the
empty string are falsy. -/
def truthy (o : Option String) : Option String :=
  match o with
  | some s => if s = "" then none else some s
  | none => none

/-- `Metadata.to_dict` (metadata.py lines 54-66): always serializes
`display_name`, `metadata`, `schema_name`; includes `name`, `resource` and
`reason` only when `trim` is false and the value is truthy. -/
def Metadata.to_dict (m : Metadata) (trim : Bool) : DocJson :=
  let d : DocJson :=
    { display_name := some m.display_name
      schema_name := some m.schema_name
      metadata := some m.metadata
      name := none
      resource := none
      reason := none }
  if trim then d
  else { d with name := truthy m.name, resource := m.resource, reason := truthy m.reason }

/-- A validation schema, abstracted to the conformance check the module
obtains from `jsonschema.validate` on the whole parsed document. -/
structure Schema where
  check : DocJson → Bool

/-- The schema cache for the store's (already validated) namespace:
`SchemaManager.namespace_schemas[namespace]`, a name-indexed mapping. -/
structure StoreCtx where
  schemas : List (String × Schema)

/-- Association-list lookup (Python `dict` access by key). -/
def lookupStr {α : Type} (l : List (String × α)) (k : String) : Option α :=
  (l.find? (fun pr => pr.1 == k)).map (fun pr => pr.2)

/-- `SchemaManager.get_schema` for a valid namespace combined with
`FileMetadataStore._get_schema` (metadata.py lines 326-342 and 401-412):
a missing schema name raises `KeyError`; the `schema_json is None` fallback
in `_get_schema` is unreachable because `get_schema` raises instead of
returning `None`. -/
def getSchema (ctx : StoreCtx) (schemaName : String) : Except PyErr Schema :=
  match lookupStr ctx.schemas schemaName with
  | none => .error (.keyError "schema-was-not-found")
  | some s => .ok s

/- ### Name validation -/

/-- Character class `[a-z]`. -/
def isLowerAlpha (c : Char) : Bool :=
  decide ('a' ≤ c) && decide (c ≤ 'z')

/-- Character class `[a-z0-9-_]` (the interior of the save-name pattern). -/
def isMidChar (c : Char) : Bool :=
  isLowerAlpha c || (decide ('0' ≤ c) && decide (c ≤ '9')) || decide (c = '-') || decide (c = '_')

/-- Character class `[a-z,0-9]` (the final character of the save-name
pattern; the comma is literally present in the source regex). -/
def isLastChar (c : Char) : Bool :=
  isLowerAlpha c || decide (c = ',') || (decide ('0' ≤ c) && decide (c ≤ '9'))

/-- `re.search("^[a-z][a-z0-9-_]*[a-z,0-9]$", name)` (metadata.py line 224):
the anchored pattern matches exactly the strings of length at least two whose
first character is `[a-z]`, middle characters are `[a-z0-9-_]` and last
character is `[a-z,0-9]`. -/
def nameMatches (s : String) : Bool :=
  match s.data with
  | [] => false
  | [_] => false
  | c :: rest =>
    isLowerAlpha c && rest.dropLast.all isMidChar &&
      (match rest.getLast? with
       | some l => isLastChar l
       | none => false)

/- ### File names -/

/-- `path.endswith(".json")` on a directory entry. -/
def endsWithJson (f : String) : Bool :=
  decide (5 ≤ f.data.length) && decide (f.data.drop (f.data.length - 5) = ".json".data)

/-- The characters of the entry with the final ".json" removed. -/
def jsonStem (f : String) : List Char :=
  f.data.take (f.data.length - 5)

/-- `os.path.splitext(os.path.basename(path))[0]` for a ".json"-suffixed
entry: strips the final ".json" unless everything before it is dots
(Python's splitext does not treat leading dots as starting an extension). -/
def jsonBase (f : String) : String :=
  if (jsonStem f).all (fun c => decide (c = '.')) then f else String.mk (jsonStem f)

/-- A directory entry holds the named metadata: it is ".json"-suffixed and
its base name equals the requested name. -/
def matchesName (f n : String) : Bool :=
  endsWithJson f && decide (jsonBase f = n)

/- ### Filesystem model -/

/-- The content of a persisted file: either undecodable JSON or a parsed
document object. -/
inductive FileContent where
  | malformed : FileContent
  | doc (j : DocJson) : FileContent

/-- One directory of the `jupyter_path('metadata', namespace)` search path:
its path, whether `os.path.isdir` holds, and its entries. -/
structure SearchDir where
  path : String
  isDir : Bool
  files : List (String × FileContent)

/-- The filesystem as the store sees it: the writable metadata directory
(`self.metadata_dir`, first entry of the search path) followed by the
remaining search-path directories. -/
structure FS where
  writable : SearchDir
  extras : List SearchDir

/-- `jupyter_path(os.path.join('metadata', namespace))`: all search
directories, writable root first. -/
def allDirs (fs : FS) : List SearchDir :=
  fs.writable :: fs.extras

/-- `FileMetadataStore.namespace_exists` (metadata.py lines 188-197): true
iff some search-path directory exists. -/
def namespaceExists (fs : FS) : Bool :=
  (allDirs fs).any (fun d => d.isDir)

/-- `os.path.exists` for an entry of a directory listing. -/
def containsFile (files : List (String × FileContent)) (fname : String) : Bool :=
  files.any (fun pr => pr.1 == fname)

/-- Drop the entry named `fname` (`os.remove`; directory keys are unique). -/
def removeFileEntries (files : List (String × FileContent)) (fname : String) :
    List (String × FileContent) :=
  files.filter (fun pr => !(pr.1 == fname))

/-- `os.remove` on the writable directory. -/
def writableRemoveFile (fs : FS) (fname : String) : FS :=
  { fs with writable := { fs.writable with files := removeFileEntries fs.writable.files fname } }

/-- `io.open(resource, 'w')` followed by a write: creates or overwrites the
entry.  The new entry is listed first (enumeration order is unspecified by
the source, so the model fixes one). -/
def writableSetFile (fs : FS) (fname : String) (c : FileContent) : FS :=
  { fs with writable :=
      { fs.writable with files := (fname, c) :: removeFileEntries fs.writable.files fname } }

/-- `os.makedirs(self.metadata_dir, mode=0o700, exist_ok=True)`: a freshly
created directory is empty. -/
def writableMkdir (fs : FS) : FS :=
  { fs with writable := { path := fs.writable.path, isDir := true, files := [] } }

/-- `shutil.rmtree(self.metadata_dir)`. -/
def writableRmtree (fs : FS) : FS :=
  { fs with writable := { path := fs.writable.path, isDir := false, files := [] } }

/- ### Loading a single resource -/

/-- The validation block of `_load_from_resource` (metadata.py lines
353-366): with `validate_metadata` set, a truthy `schema_name` selects the
schema (`_get_schema` raising on a missing one) and runs `validate`
(metadata.py lines 163-174); a failing check raises `ValidationError`
unless `include_invalid` turns it into the recorded reason
(`ve.__class__.__name__`).  A falsy or absent `schema_name` skips
validation. -/
def validateStep (ctx : StoreCtx) (j : DocJson) (validateMetadata includeInvalid : Bool) :
    Except PyErr (Option String) :=
  if validateMetadata then
    match j.schema_name with
    | some sn =>
      if sn = "" then .ok none
      else
        match getSchema ctx sn with
        | .error e => .error e
        | .ok schema =>
          if schema.check j then .ok none
          else if includeInvalid then .ok (some "ValidationError")
          else .error (.validationError "schema-validation-failed")
    | none => .ok none
  else .ok none

/-- `FileMetadataStore._load_from_resource` (metadata.py lines 344-374).
The file content is the parse of the bytes at `resource`; the document name
comes from the resource's base name; after the validation step the
`Metadata` construction reads `display_name`, `schema_name` and `metadata`
with `dict[...]`, each raising `KeyError` when its key is absent, and the
constructor replaces a falsy `schema_name` by `DEFAULT_SCHEMA_NAME`
(metadata.py line 48). -/
def loadFromResource (ctx : StoreCtx) (resource : ResPath) (content : FileContent)
    (validateMetadata : Bool) (includeInvalid : Bool) : Except PyErr Metadata :=
  match content with
  | .malformed => .error (.jsonDecodeError "Expecting value")
  | .doc j =>
    match validateStep ctx j validateMetadata includeInvalid with
    | .error e => .error e
    | .ok reason =>
      match j.display_name with
      | none => .error (.keyError "display_name")
      | some dn =>
        match j.schema_name with
        | none => .error (.keyError "schema_name")
        | some sn =>
          match j.metadata with
          | none => .error (.keyError "metadata")
          | some props =>
            .ok { name := some (jsonBase resource.fname)
                  resource := some resource
                  display_name := dn
                  schema_name := if sn = "" then DEFAULT_SCHEMA_NAME else sn
                  metadata := props
                  reason := reason }

/- ### Searching the directories -/

/-- The inner loop of `_load_metadata_resources` with a `name`: the first
".json" entry whose base name equals `name`. -/
def findFirstMatch (files : List (String × FileContent)) (n : String) :
    Option (String × FileContent) :=
  files.find? (fun pr => matchesName pr.1 n)

/-- `_load_metadata_resources` with a `name` (metadata.py lines 298-322,
single-resource branch): scan the directories in order, return the load of
the first matching entry (its errors propagate), raise `KeyError` when no
directory yields a match. -/
def loadNamedFromDirs (ctx : StoreCtx) (dirs : List SearchDir) (n : String)
    (validateMetadata : Bool) : Except PyErr Metadata :=
  match dirs with
  | [] => .error (.keyError "metadata-was-not-found")
  | d :: rest =>
    if d.isDir then
      match findFirstMatch d.files n with
      | some pr => loadFromResource ctx ⟨d.path, pr.1⟩ pr.2 validateMetadata false
      | none => loadNamedFromDirs ctx rest n validateMetadata
    else loadNamedFromDirs ctx rest n validateMetadata

/-- `_load_metadata_resources(name=..)` including the namespace-existence
guard (metadata.py lines 293-322). -/
def loadNamedResource (ctx : StoreCtx) (fs : FS) (n : String)
    (validateMetadata : Bool) : Except PyErr Metadata :=
  if namespaceExists fs then loadNamedFromDirs ctx (allDirs fs) n validateMetadata
  else .error (.keyError "namespace-was-not-found")

/-- The bulk branch of `_load_metadata_resources` over one directory:
every ".json" entry is loaded; any load error drops the entry silently. -/
def loadDirAll (ctx : StoreCtx) (p : String) (files : List (String × FileContent))
    (validateMetadata : Bool) (includeInvalid : Bool) : List Metadata :=
  files.filterMap (fun pr =>
    if endsWithJson pr.1 then
      (loadFromResource ctx ⟨p, pr.1⟩ pr.2 validateMetadata includeInvalid).toOption
    else none)

/-- `_load_metadata_resources()` without a `name` (metadata.py lines
293-324): raise `KeyError` when the namespace has no directory, otherwise
collect the loadable documents of every existing directory. -/
def loadAllResources (ctx : StoreCtx) (fs : FS) (validateMetadata : Bool)
    (includeInvalid : Bool) : Except PyErr (List Metadata) :=
  if namespaceExists fs then
    .ok ((allDirs fs).flatMap (fun d =>
      if d.isDir then loadDirAll ctx d.path d.files validateMetadata includeInvalid else []))
  else .error (.keyError "namespace-was-not-found")

/- ### The store operations -/

/-- `FileMetadataStore.read` (metadata.py lines 215-218): an empty name
raises `ValueError` before any filesystem access; otherwise delegate to the
named load with validation. -/
def read (ctx : StoreCtx) (fs : FS) (name : String) : Except PyErr Metadata :=
  if name = "" then .error (.valueError "name-of-metadata-was-not-provided")
  else loadNamedResource ctx fs name true

/-- `FileMetadataStore.get_all` (metadata.py lines 212-213). -/
def get_all (ctx : StoreCtx) (fs : FS) : Except PyErr (List Metadata) :=
  loadAllResources ctx fs true false

/-- `FileMetadataStore._get_resource` (metadata.py lines 288-291): the path
of the document's file in the writable directory
(`'{}.json'.format(metadata.name)`; Python formats `None` as "None"). -/
def getResource (fs : FS) (m : Metadata) : ResPath :=
  ⟨fs.writable.path, (m.name.getD "None") ++ ".json"⟩

/-- The summary mapping built inside `get_all_metadata_summary` (metadata.py
lines 201-209): each iteration overwrites the same three keys, so the final
dict holds the last document's entries. -/
structure SummaryDict where
  name : Option String
  display_name : Option String
  location : Option ResPath

/-- `metadata_summary.update({..})` folded over the list. -/
def buildSummary (fs : FS) (l : List Metadata) : SummaryDict :=
  l.foldl
    (fun _ m =>
      { name := m.name, display_name := some m.display_name, location := some (getResource fs m) })
    { name := none, display_name := none, location := none }

/-- `FileMetadataStore.get_all_metadata_summary` (metadata.py lines
199-210): loads the resources, builds the summary dict, but returns
`metadata_list` — the summary is discarded. -/
def get_all_metadata_summary (ctx : StoreCtx) (fs : FS) (includeInvalid : Bool) :
    Except PyErr (List Metadata) :=
  (loadAllResources ctx fs true includeInvalid).map (fun metadata_list =>
    let _metadata_summary := buildSummary fs metadata_list
    metadata_list)

/-- `FileMetadataStore.remove` (metadata.py lines 275-286): load the named
document without validation; a `KeyError` (not found) is logged and
swallowed, other load errors propagate; then `os.remove` the path computed
by `_get_resource` in the writable directory — raising `FileNotFoundError`
when no such file is there — and return that path. -/
def remove (ctx : StoreCtx) (fs : FS) (name : String) :
    FS × Except PyErr (Option ResPath) :=
  match loadNamedResource ctx fs name false with
  | .error (.keyError _) => (fs, .ok none)
  | .error e => (fs, .error e)
  | .ok md =>
    let fname := (md.name.getD "None") ++ ".json"
    let resource := getResource fs md
    if fs.writable.isDir && containsFile fs.writable.files fname then
      (writableRemoveFile fs fname, .ok (some resource))
    else (fs, .error (.ioError "no-such-file-or-directory"))

/-- `FileMetadataStore.save` (metadata.py lines 220-273).  In order: an
empty name raises `ValueError`; a name failing the identifier regex raises
`ValueError`; a missing metadata instance raises `ValueError` (the
`isinstance` `TypeError` branch cannot arise in the typed model).  The
target path is the writable directory's `name + ".json"`; an existing
target is removed when `replace` is set and otherwise the call returns
`None` without writing.  When no search-path directory exists the writable
directory is created and the fact recorded.  The trimmed serialization is
written (a failing write is swallowed; it can only fail here when the
writable directory is absent while another search directory exists, and the
subsequent re-load then raises `FileNotFoundError`).  The just-written file
is re-loaded with validation: a `ValidationError` triggers rollback —
`rmtree` of the whole directory when this call created it, deletion of just
the file otherwise — and a `None` result; any other re-load error
propagates with no cleanup. -/
def save (ctx : StoreCtx) (fs : FS) (name : String) (metadata : Option Metadata)
    (replace : Bool) : FS × Except PyErr (Option ResPath) :=
  if name = "" then (fs, .error (.valueError "name-of-metadata-was-not-provided"))
  else if nameMatches name = false then
    (fs, .error (.valueError "name-of-metadata-must-be-lowercase-alphanumeric"))
  else
    match metadata with
    | none => (fs, .error (.valueError "an-instance-of-class-metadata-was-not-provided"))
    | some md =>
      let fname := name ++ ".json"
      let resource : ResPath := ⟨fs.writable.path, fname⟩
      let resourceExists := fs.writable.isDir && containsFile fs.writable.files fname
      if resourceExists && !replace then (fs, .ok none)
      else
        let fs1 := if resourceExists then writableRemoveFile fs fname else fs
        let createdNamespaceDir := !namespaceExists fs1
        let fs2 := if createdNamespaceDir then writableMkdir fs1 else fs1
        if fs2.writable.isDir then
          let content := FileContent.doc (md.to_dict true)
          let fs3 := writableSetFile fs2 fname content
          match loadFromResource ctx resource content true false with
          | .ok _ => (fs3, .ok (some resource))
          | .error (.validationError _) =>
            if createdNamespaceDir then (writableRmtree fs3, .ok none)
            else (writableRemoveFile fs3 fname, .ok none)
          | .error e => (fs3, .error e)
        else (fs2, .error (.ioError "no-such-file-or-directory"))

/- ### Concrete fixtures for witnesses and counterexamples -/

/-- A schema cache holding a "kfp" schema that accepts every document. -/
def acceptAllCtx : StoreCtx := ⟨[("kfp", ⟨fun _ => true⟩)]⟩

/-- A schema cache holding a "kfp" schema that rejects every document. -/
def rejectAllCtx : StoreCtx := ⟨[("kfp", ⟨fun _ => false⟩)]⟩

/-- An empty schema cache (no schema names resolve). -/
def emptyCtx : StoreCtx := ⟨[]⟩

/-- A well-formed persisted document tagged with the "kfp" schema. -/
def sampleDoc : DocJson := ⟨some "x", some "kfp", some [], none, none, none⟩

/-- A well-formed in-memory document tagged with the "kfp" schema. -/
def sampleMd : Metadata := ⟨none, none, "x", "kfp", [], none⟩

/-- A store state whose writable directory does not exist yet and that has
no extra search directories. -/
def emptyFS : FS := ⟨⟨"/data/metadata/runtimes", false, []⟩, []⟩

/-- A store state whose namespace directory exists only as a read-only
extra search directory containing "doc.json". -/
def extraOnlyFS : FS :=
  ⟨⟨"/w", false, []⟩, [⟨"/e", true, [("doc.json", FileContent.doc sampleDoc)]⟩]⟩

/- ### Helper lemmas -/

theorem nameMatches_head {s : String} (h : nameMatches s = true) :
    ∃ c rest, s.data = c :: rest ∧ isLowerAlpha c = true := by
  unfold nameMatches at h
  rcases hd : s.data with _ | ⟨c, rest⟩
  · rw [hd] at h; exact absurd h (by simp)
  · rcases rest with _ | ⟨d, rest2⟩
    · rw [hd] at h; exact absurd h (by simp)
    · rw [hd] at h
      refine ⟨c, d :: rest2, rfl, ?_⟩
      simp only [Bool.and_eq_true] at h
      exact h.1.1

theorem nameMatches_ne_empty {s : String} (h : nameMatches s = true) : s ≠ "" := by
  intro e
  rw [e] at h
  exact absurd h (by decide)

theorem endsWithJson_append (n : String) : endsWithJson (n ++ ".json") = true := by
  unfold endsWithJson
  simp only [String.data_append, List.length_append]
  have hl : ".json".data.length = 5 := rfl
  rw [hl, Nat.add_sub_cancel, List.drop_left]
  simp [Nat.le_add_left]

theorem jsonStem_append (n : String) : jsonStem (n ++ ".json") = n.data := by
  unfold jsonStem
  simp only [String.data_append, List.length_append]
  have hl : ".json".data.length = 5 := rfl
  rw [hl, Nat.add_sub_cancel, List.take_left]

theorem string_mk_data (s : String) : String.mk s.data = s := rfl

theorem jsonBase_append {n : String} (h : nameMatches n = true) :
    jsonBase (n ++ ".json") = n := by
  obtain ⟨c, rest, hd, hc⟩ := nameMatches_head h
  have hne : c ≠ '.' := by
    intro e
    rw [e] at hc
    exact absurd hc (by decide)
  have hall : (jsonStem (n ++ ".json")).all (fun c => decide (c = '.')) = false := by
    rw [jsonStem_append, hd]
    simp [hne]
  unfold jsonBase
  rw [hall]
  simp only [Bool.false_eq_true, if_false]
  rw [jsonStem_append, string_mk_data]

theorem matchesName_json {n : String} (h : nameMatches n = true) :
    matchesName (n ++ ".json") n = true := by
  unfold matchesName
  rw [endsWithJson_append, jsonBase_append h]
  simp

theorem namespaceExists_eq_writable {fs : FS} (hex : ∀ d ∈ fs.extras, d.isDir = false) :
    namespaceExists fs = fs.writable.isDir := by
  have h2 : fs.extras.any (fun d => d.isDir) = false := by
    rw [List.any_eq_false]
    intro d hd
    simp [hex d hd]
  unfold namespaceExists allDirs
  simp [List.any_cons, h2]

theorem removeFileEntries_of_no_key {files : List (String × FileContent)} {fname : String}
    (h : ∀ pr ∈ files, ¬ pr.1 = fname) : removeFileEntries files fname = files := by
  unfold removeFileEntries
  rw [List.filter_eq_self]
  intro pr hpr
  simp [h pr hpr]

theorem containsFile_false_no_key {files : List (String × FileContent)} {fname : String}
    (h : containsFile files fname = false) : ∀ pr ∈ files, ¬ pr.1 = fname := by
  intro pr hpr he
  rw [containsFile, List.any_eq_false] at h
  exact absurd (by simp [he]) (h pr hpr)

theorem exceptToOption_eq_some {ε α : Type} {x : Except ε α} {a : α}
    (h : x.toOption = some a) : x = .ok a := by
  cases x with
  | ok b => simp [Except.toOption] at h; rw [h]
  | error e => simp [Except.toOption] at h

theorem loadNamedFromDirs_not_found {ctx : StoreCtx} {dirs : List SearchDir} {n : String}
    {v : Bool}
    (h : ∀ d ∈ dirs, d.isDir = true → ∀ pr ∈ d.files, matchesName pr.1 n = false) :
    loadNamedFromDirs ctx dirs n v = .error (.keyError "metadata-was-not-found") := by
  induction dirs with
  | nil => rfl
  | cons d rest ih =>
    have hrest : ∀ d' ∈ rest, d'.isDir = true → ∀ pr ∈ d'.files, matchesName pr.1 n = false :=
      fun d' hd' => h d' (List.mem_cons_of_mem d hd')
    by_cases hd : d.isDir
    · have hfm : findFirstMatch d.files n = none := by
        unfold findFirstMatch
        rw [List.find?_eq_none]
        intro pr hpr
        simp [h d (List.mem_cons_self d rest) hd pr hpr]
      simp [loadNamedFromDirs, hd, hfm, ih hrest]
    · simp [loadNamedFromDirs, hd, ih hrest]

theorem mem_loadDirAll {ctx : StoreCtx} {p : String}
    {files : List (String × FileContent)} {v ii : Bool} {m : Metadata}
    (h : m ∈ loadDirAll ctx p files v ii) :
    ∃ pr ∈ files, endsWithJson pr.1 = true ∧
      loadFromResource ctx ⟨p, pr.1⟩ pr.2 v ii = .ok m := by
  unfold loadDirAll at h
  rw [List.mem_filterMap] at h
  obtain ⟨pr, hpr, hsome⟩ := h
  by_cases he : endsWithJson pr.1
  · rw [if_pos he] at hsome
    exact ⟨pr, hpr, he, exceptToOption_eq_some hsome⟩
  · rw [if_neg he] at hsome
    cases hsome

theorem loadFromResource_ok_name {ctx : StoreCtx} {r : ResPath} {c : FileContent}
    {v ii : Bool} {m : Metadata}
    (h : loadFromResource ctx r c v ii = .ok m) : m.name = some (jsonBase r.fname) := by
  cases c with
  | malformed => exact absurd h (by simp [loadFromResource])
  | doc j =>
    simp only [loadFromResource] at h
    cases hv : validateStep ctx j v ii with
    | error e => rw [hv] at h; exact absurd h (by simp)
    | ok reason =>
      rw [hv] at h
      cases hdn : j.display_name with
      | none => rw [hdn] at h; exact absurd h (by simp)
      | some dn =>
        rw [hdn] at h
        cases hsn : j.schema_name with
        | none => rw [hsn] at h; exact absurd h (by simp)
        | some sn =>
          rw [hsn] at h
          cases hmd : j.metadata with
          | none => rw [hmd] at h; exact absurd h (by simp)
          | some props =>
            rw [hmd] at h
            simp only [Except.ok.injEq] at h
            rw [← h]

@[simp] theorem writableRemoveFile_path (fs : FS) (f : String) :
    (writableRemoveFile fs f).writable.path = fs.writable.path := rfl

@[simp] theorem writableRemoveFile_isDir (fs : FS) (f : String) :
    (writableRemoveFile fs f).writable.isDir = fs.writable.isDir := rfl

@[simp] theorem writableRemoveFile_extras (fs : FS) (f : String) :
    (writableRemoveFile fs f).extras = fs.extras := rfl

@[simp] theorem writableSetFile_path (fs : FS) (f : String) (c : FileContent) :
    (writableSetFile fs f c).writable.path = fs.writable.path := rfl

@[simp] theorem writableSetFile_isDir (fs : FS) (f : String) (c : FileContent) :
    (writableSetFile fs f c).writable.isDir = fs.writable.isDir := rfl

@[simp] theorem writableSetFile_extras (fs : FS) (f : String) (c : FileContent) :
    (writableSetFile fs f c).extras = fs.extras := rfl

@[simp] theorem writableSetFile_files (fs : FS) (f : String) (c : FileContent) :
    (writableSetFile fs f c).writable.files = (f, c) :: removeFileEntries fs.writable.files f := rfl

@[simp] theorem writableMkdir_path (fs : FS) : (writableMkdir fs).writable.path = fs.writable.path := rfl

@[simp] theorem writableMkdir_isDir (fs : FS) : (writableMkdir fs).writable.isDir = true := rfl

@[simp] theorem writableMkdir_extras (fs : FS) : (writableMkdir fs).extras = fs.extras := rfl

@[simp] theorem writableMkdir_files (fs : FS) : (writableMkdir fs).writable.files = [] := rfl

@[simp] theorem writableRmtree_isDir (fs : FS) : (writableRmtree fs).writable.isDir = false := rfl

@[simp] theorem writableRmtree_extras (fs : FS) : (writableRmtree fs).extras = fs.extras := rfl

@[simp] theorem namespaceExists_removeFile (fs : FS) (f : String) :
    namespaceExists (writableRemoveFile fs f) = namespaceExists fs := rfl

/-- Evaluation of `save` (replace mode) on a state whose writable directory
exists: no directory is created, so a validation failure rolls back just
the file. -/
theorem save_steps_existing {ctx : StoreCtx} {fs : FS} {n : String} {md : Metadata}
    (hn : nameMatches n = true)
    (hw : fs.writable.isDir = true)
    (hex : ∀ d ∈ fs.extras, d.isDir = false) :
    save ctx fs n (some md) true =
      (let fname := n ++ ".json"
       let fs1 := if containsFile fs.writable.files fname then writableRemoveFile fs fname else fs
       let content := FileContent.doc (md.to_dict true)
       let fs3 := writableSetFile fs1 fname content
       match loadFromResource ctx ⟨fs.writable.path, fname⟩ content true false with
       | .ok _ => (fs3, .ok (some ⟨fs.writable.path, fname⟩))
       | .error (.validationError _) => (writableRemoveFile fs3 fname, .ok none)
       | .error e => (fs3, .error e)) := by
  have hne := nameMatches_ne_empty hn
  have hnex := namespaceExists_eq_writable hex
  by_cases hre : containsFile fs.writable.files (n ++ ".json")
  · simp only [save, if_neg hne, hn, hre, hnex, hw, Bool.true_and, Bool.not_true,
      Bool.and_false, Bool.false_eq_true, if_false, if_true, namespaceExists_removeFile,
      writableRemoveFile_isDir, Bool.true_eq_false, Bool.not_eq_true]
  · simp only [save, if_neg hne, hn, hre, hnex, hw, Bool.true_and, Bool.not_true,
      Bool.and_false, Bool.false_eq_true, if_false, if_true, namespaceExists_removeFile,
      writableRemoveFile_isDir, Bool.true_eq_false, Bool.not_eq_true]

/-- Evaluation of `save` (replace mode) when no search-path directory
exists: the writable directory is created, and a validation failure removes
the whole directory again. -/
theorem save_steps_new {ctx : StoreCtx} {fs : FS} {n : String} {md : Metadata}
    (hn : nameMatches n = true)
    (hw : fs.writable.isDir = false)
    (hex : ∀ d ∈ fs.extras, d.isDir = false) :
    save ctx fs n (some md) true =
      (let fname := n ++ ".json"
       let content := FileContent.doc (md.to_dict true)
       let fs3 := writableSetFile (writableMkdir fs) fname content
       match loadFromResource ctx ⟨fs.writable.path, fname⟩ content true false with
       | .ok _ => (fs3, .ok (some ⟨fs.writable.path, fname⟩))
       | .error (.validationError _) => (writableRmtree fs3, .ok none)
       | .error e => (fs3, .error e)) := by
  have hne := nameMatches_ne_empty hn
  have hnex := namespaceExists_eq_writable hex
  simp only [save, if_neg hne, hn, hnex, hw, Bool.false_and, Bool.false_eq_true, if_false,
    Bool.not_false, if_true, writableMkdir_isDir, Bool.true_eq_false]

/-- `read` finds the head entry of the writable directory when it matches
the requested name. -/
theorem read_writable_head {ctx : StoreCtx} {fs : FS} {n fname : String} {c : FileContent}
    {rest : List (String × FileContent)}
    (hne : n ≠ "")
    (hw : fs.writable.isDir = true)
    (hfiles : fs.writable.files = (fname, c) :: rest)
    (hm : matchesName fname n = true) :
    read ctx fs n = loadFromResource ctx ⟨fs.writable.path, fname⟩ c true false := by
  have hns : namespaceExists fs = true := by simp [namespaceExists, allDirs, hw]
  have hfind : findFirstMatch fs.writable.files n = some (fname, c) := by
    rw [hfiles]
    unfold findFirstMatch
    exact List.find?_cons_of_pos _ hm
  simp [read, if_neg hne, loadNamedResource, hns, allDirs, loadNamedFromDirs, hw, hfind]

/- ### Claim C1 -/

/-- C1: for every name accepted by the identifier rule and every valid
`Metadata` document (constructor-normalized `schema_name`, whose schema is
cached and whose trimmed serialization passes it), `save(name, document)`
followed by `read(name)` returns a document whose `metadata` payload,
`display_name` and `schema_name` equal those of the saved input and whose
`name` equals the save key.  The store's extra search-path directories are
assumed absent (the writable root is the only directory candidate, the
ordinary single-data-dir configuration). -/
theorem save_read_roundtrip (ctx : StoreCtx) (fs : FS) (n : String) (md : Metadata)
    (sch : Schema)
    (hn : nameMatches n = true)
    (hsn : md.schema_name ≠ "")
    (hex : ∀ d ∈ fs.extras, d.isDir = false)
    (hsch : getSchema ctx md.schema_name = .ok sch)
    (hok : sch.check (md.to_dict true) = true) :
    (save ctx fs n (some md) true).2 = .ok (some ⟨fs.writable.path, n ++ ".json"⟩) ∧
    ∃ m, read ctx (save ctx fs n (some md) true).1 n = .ok m ∧
      m.metadata = md.metadata ∧ m.display_name = md.display_name ∧
      m.schema_name = md.schema_name ∧ m.name = some n := by
  have hne := nameMatches_ne_empty hn
  have hok' : sch.check
      { display_name := some md.display_name, schema_name := some md.schema_name,
        metadata := some md.metadata, name := none, resource := none, reason := none } = true := by
    simpa [Metadata.to_dict] using hok
  have hload : ∀ p : String,
      loadFromResource ctx ⟨p, n ++ ".json"⟩ (FileContent.doc (md.to_dict true)) true false =
        .ok { name := some n, resource := some ⟨p, n ++ ".json"⟩,
              display_name := md.display_name, schema_name := md.schema_name,
              metadata := md.metadata, reason := none } := by
    intro p
    simp [loadFromResource, validateStep, Metadata.to_dict, hsn, hsch, hok',
      jsonBase_append hn]
  have readOk : ∀ fs' : FS, fs'.writable.isDir = true → fs'.writable.path = fs.writable.path →
      (∃ rest, fs'.writable.files = (n ++ ".json", FileContent.doc (md.to_dict true)) :: rest) →
      read ctx fs' n =
        .ok { name := some n, resource := some ⟨fs.writable.path, n ++ ".json"⟩,
              display_name := md.display_name, schema_name := md.schema_name,
              metadata := md.metadata, reason := none } := by
    rintro fs' hw' hp' ⟨rest, hfiles⟩
    rw [read_writable_head hne hw' hfiles (matchesName_json hn), hp', hload]
  cases hw : fs.writable.isDir with
  | false =>
    have hout := @save_steps_new ctx fs n md hn hw hex
    have hstate : (save ctx fs n (some md) true).1 =
        writableSetFile (writableMkdir fs) (n ++ ".json") (FileContent.doc (md.to_dict true)) := by
      rw [hout]; simp only [hload]
    have hout2 : (save ctx fs n (some md) true).2 =
        .ok (some ⟨fs.writable.path, n ++ ".json"⟩) := by
      rw [hout]; simp only [hload]
    refine ⟨hout2, ?_⟩
    rw [hstate]
    exact ⟨_, readOk (writableSetFile (writableMkdir fs) (n ++ ".json")
      (FileContent.doc (md.to_dict true))) rfl rfl ⟨_, rfl⟩, rfl, rfl, rfl, rfl⟩
  | true =>
    have hout := @save_steps_existing ctx fs n md hn hw hex
    have hfs1isDir :
        (if containsFile fs.writable.files (n ++ ".json") then
            writableRemoveFile fs (n ++ ".json") else fs).writable.isDir = true := by
      by_cases h : containsFile fs.writable.files (n ++ ".json") <;> simp [h, hw]
    have hfs1path :
        (if containsFile fs.writable.files (n ++ ".json") then
            writableRemoveFile fs (n ++ ".json") else fs).writable.path = fs.writable.path := by
      by_cases h : containsFile fs.writable.files (n ++ ".json") <;> simp [h]
    have hstate : (save ctx fs n (some md) true).1 =
        writableSetFile
          (if containsFile fs.writable.files (n ++ ".json") then
            writableRemoveFile fs (n ++ ".json") else fs)
          (n ++ ".json") (FileContent.doc (md.to_dict true)) := by
      rw [hout]; simp only [hload]
    have hout2 : (save ctx fs n (some md) true).2 =
        .ok (some ⟨fs.writable.path, n ++ ".json"⟩) := by
      rw [hout]; simp only [hload]
    refine ⟨hout2, ?_⟩
    rw [hstate]
    exact ⟨_, readOk (writableSetFile
        (if containsFile fs.writable.files (n ++ ".json") then
          writableRemoveFile fs (n ++ ".json") else fs)
        (n ++ ".json") (FileContent.doc (md.to_dict true)))
      (by simp [hfs1isDir]) (by simp [hfs1path]) ⟨_, rfl⟩, rfl, rfl, rfl, rfl⟩

/-- Witness for C1 at a concrete input: the example scenario of the spec
(`runtimes` namespace, name "my-runtime"). -/
theorem save_read_roundtrip_witness :
    nameMatches "my-runtime" = true ∧
    ∃ m, read ⟨[("kfp", ⟨fun _ => true⟩)]⟩
        (save ⟨[("kfp", ⟨fun _ => true⟩)]⟩ ⟨⟨"/data/metadata/runtimes", false, []⟩, []⟩
          "my-runtime" (some ⟨none, none, "My Runtime", "kfp",
            [("api_endpoint", JsonValue.str "endpoint")], none⟩) true).1 "my-runtime" = .ok m ∧
      m.metadata = [("api_endpoint", JsonValue.str "endpoint")] ∧
      m.display_name = "My Runtime" ∧ m.schema_name = "kfp" ∧ m.name = some "my-runtime" := by
  refine ⟨by decide, ?_⟩
  exact (save_read_roundtrip ⟨[("kfp", ⟨fun _ => true⟩)]⟩
    ⟨⟨"/data/metadata/runtimes", false, []⟩, []⟩ "my-runtime"
    ⟨none, none, "My Runtime", "kfp", [("api_endpoint", JsonValue.str "endpoint")], none⟩
    ⟨fun _ => true⟩ (by decide) (by decide) (by simp) rfl rfl).2

/- ### Claim C2 -/

/-- No document named `n` appears in a bulk listing of a state whose
writable directory holds no entry with base name `n` and whose extra
search directories do not exist. -/
theorem get_all_names {ctx : StoreCtx} {fs : FS} {n : String}
    (hex : ∀ d ∈ fs.extras, d.isDir = false)
    (hfm : ∀ pr ∈ fs.writable.files, matchesName pr.1 n = false) :
    ∀ l, get_all ctx fs = .ok l → ∀ m ∈ l, m.name ≠ some n := by
  intro l hl m hm he
  unfold get_all loadAllResources at hl
  by_cases hns : namespaceExists fs = true
  · rw [if_pos hns] at hl
    injection hl with hl
    rw [← hl] at hm
    rw [List.mem_flatMap] at hm
    obtain ⟨d, hd, hmd⟩ := hm
    rcases List.mem_cons.mp hd with hdw | hdx
    · rw [hdw] at hmd
      by_cases hdir : fs.writable.isDir = true
      · rw [if_pos hdir] at hmd
        obtain ⟨pr, hpr, hjson, hok⟩ := mem_loadDirAll hmd
        have hname := loadFromResource_ok_name hok
        rw [he] at hname
        have hbase : jsonBase pr.1 = n := by
          injection hname.symm with hname2
        have : matchesName pr.1 n = true := by
          unfold matchesName
          rw [hjson, hbase]
          simp
        rw [hfm pr hpr] at this
        cases this
      · rw [if_neg hdir] at hmd
        cases hmd
    · have hdir : d.isDir = false := hex d hdx
      rw [hdir] at hmd
      simp at hmd
  · rw [if_neg hns] at hl
    cases hl

/-- C2: saving a document whose trimmed serialization fails its schema
returns no resource (`None`), removes the just-written file again (whole
directory included when this call created it), and a later bulk listing
does not contain the document.  Assumes a clean pre-state: extra search
directories absent, and no pre-existing file with the saved base name. -/
theorem save_validation_failure_rollback (ctx : StoreCtx) (fs : FS) (n : String)
    (md : Metadata) (sch : Schema)
    (hn : nameMatches n = true)
    (hsn : md.schema_name ≠ "")
    (hex : ∀ d ∈ fs.extras, d.isDir = false)
    (hpre : ∀ pr ∈ fs.writable.files, matchesName pr.1 n = false)
    (hsch : getSchema ctx md.schema_name = .ok sch)
    (hbad : sch.check (md.to_dict true) = false) :
    (save ctx fs n (some md) true).2 = .ok none ∧
    containsFile (save ctx fs n (some md) true).1.writable.files (n ++ ".json") = false ∧
    (∀ l, get_all ctx (save ctx fs n (some md) true).1 = .ok l → ∀ m ∈ l, m.name ≠ some n) ∧
    (namespaceExists fs = false → (save ctx fs n (some md) true).1.writable.isDir = false) := by
  have hne := nameMatches_ne_empty hn
  have hnex := namespaceExists_eq_writable hex
  have hbad' : sch.check
      { display_name := some md.display_name, schema_name := some md.schema_name,
        metadata := some md.metadata, name := none, resource := none, reason := none } = false := by
    simpa [Metadata.to_dict] using hbad
  have hloadBad : ∀ p : String,
      loadFromResource ctx ⟨p, n ++ ".json"⟩ (FileContent.doc (md.to_dict true)) true false =
        .error (.validationError "schema-validation-failed") := by
    intro p
    simp [loadFromResource, validateStep, Metadata.to_dict, hsn, hsch, hbad']
  have hnokey : ∀ pr ∈ fs.writable.files, ¬ pr.1 = (n ++ ".json") := by
    intro pr hpr he
    have h2 := hpre pr hpr
    rw [he, matchesName_json hn] at h2
    cases h2
  have hre : containsFile fs.writable.files (n ++ ".json") = false := by
    rw [containsFile, List.any_eq_false]
    intro pr hpr
    simp only [beq_iff_eq]
    exact fun he => hnokey pr hpr he
  cases hw : fs.writable.isDir with
  | true =>
    have hout := @save_steps_existing ctx fs n md hn hw hex
    have hfiles : (save ctx fs n (some md) true).1.writable.files = fs.writable.files := by
      rw [hout]
      simp only [hloadBad, hre, Bool.false_eq_true, if_false]
      show removeFileEntries
        ((n ++ ".json", FileContent.doc (md.to_dict true)) ::
          removeFileEntries fs.writable.files (n ++ ".json")) (n ++ ".json") = _
      rw [removeFileEntries_of_no_key hnokey]
      unfold removeFileEntries
      rw [List.filter_cons]
      simp only [beq_self_eq_true, Bool.not_true, Bool.false_eq_true, if_false]
      exact removeFileEntries_of_no_key hnokey
    have hextras : (save ctx fs n (some md) true).1.extras = fs.extras := by
      rw [hout]
      simp only [hloadBad, hre, Bool.false_eq_true, if_false]
      rfl
    refine ⟨?_, ?_, ?_, ?_⟩
    · rw [hout]
      simp only [hloadBad, hre, Bool.false_eq_true, if_false]
    · rw [hfiles]
      exact hre
    · refine get_all_names ?_ ?_
      · rw [hextras]; exact hex
      · rw [hfiles]; exact hpre
    · intro hcontra
      rw [hnex, hw] at hcontra
      cases hcontra
  | false =>
    have hout := @save_steps_new ctx fs n md hn hw hex
    have hstate : (save ctx fs n (some md) true).1 =
        writableRmtree (writableSetFile (writableMkdir fs) (n ++ ".json")
          (FileContent.doc (md.to_dict true))) := by
      rw [hout]
      simp only [hloadBad]
    refine ⟨?_, ?_, ?_, ?_⟩
    · rw [hout]
      simp only [hloadBad]
    · rw [hstate]
      rfl
    · refine get_all_names ?_ ?_
      · rw [hstate]
        simpa using hex
      · rw [hstate]
        intro pr hpr
        cases hpr
    · intro _
      rw [hstate]
      rfl

/-- Witness for C2 at a concrete input: a schema that rejects everything,
an initially absent namespace directory. -/
theorem save_validation_failure_rollback_witness :
    (save ⟨[("kfp", ⟨fun _ => false⟩)]⟩ ⟨⟨"/data/metadata/runtimes", false, []⟩, []⟩
      "my-runtime" (some ⟨none, none, "My Runtime", "kfp", [], none⟩) true).2 = .ok none ∧
    (save ⟨[("kfp", ⟨fun _ => false⟩)]⟩ ⟨⟨"/data/metadata/runtimes", false, []⟩, []⟩
      "my-runtime" (some ⟨none, none, "My Runtime", "kfp", [], none⟩) true).1.writable.isDir
      = false := by
  have h := save_validation_failure_rollback ⟨[("kfp", ⟨fun _ => false⟩)]⟩
    ⟨⟨"/data/metadata/runtimes", false, []⟩, []⟩ "my-runtime"
    ⟨none, none, "My Runtime", "kfp", [], none⟩ ⟨fun _ => false⟩
    (by decide) (by decide) (by simp) (by simp) rfl rfl
  exact ⟨h.1, h.2.2.2 rfl⟩

/- ### Claim C3 -/

/-- C3 (evaluation at the failing input): a persisted document whose
serialized content lacks the `schema_name` key does skip validation (even
with an empty schema cache no schema is consulted, so no `ValidationError`
and no schema-lookup `KeyError` arises), but the subsequent `Metadata`
construction evaluates `metadata_json['schema_name']` and raises
`KeyError('schema_name')` — the load fails instead of returning the
document, contradicting the claim that such legacy documents remain
loadable. -/
theorem read_legacy_missing_schema_name_keyerror :
    read emptyCtx
      ⟨⟨"/data/metadata/runtimes", true,
        [("legacy.json", FileContent.doc ⟨some "Legacy", none, some [], none, none, none⟩)]⟩, []⟩
      "legacy" = .error (.keyError "schema_name") := rfl

/- ### Claim C4 -/

/-- C4 (evaluation of the name rule, including the failing input): save
rejects the empty string, names starting or ending with a hyphen or an
underscore, names containing uppercase letters and names containing
whitespace, and accepts "a-b_c9" and "foo-bar" — but the regex
`^[a-z][a-z0-9-_]*[a-z,0-9]$` demands at least two characters, so the
claimed-accepted name "a" is rejected with `ValueError`; the stray comma in
the final character class also makes the code accept the name consisting of
the letter a followed by a comma, which the identifier rule forbids. -/
theorem name_validation_behavior :
    save acceptAllCtx emptyFS "" (some sampleMd) true =
      (emptyFS, .error (.valueError "name-of-metadata-was-not-provided")) ∧
    nameMatches "-ab" = false ∧ nameMatches "ab-" = false ∧
    nameMatches "_ab" = false ∧ nameMatches "ab_" = false ∧
    nameMatches "aBc" = false ∧ nameMatches "Abc" = false ∧
    nameMatches "a b" = false ∧ nameMatches " ab" = false ∧
    nameMatches "a-b_c9" = true ∧ nameMatches "foo-bar" = true ∧
    nameMatches "a" = false ∧
    save acceptAllCtx emptyFS "a" (some sampleMd) true =
      (emptyFS, .error (.valueError "name-of-metadata-must-be-lowercase-alphanumeric")) ∧
    nameMatches "a," = true := by
  refine ⟨rfl, ?_, ?_, ?_, ?_, ?_, ?_, ?_, ?_, ?_, ?_, ?_, rfl, ?_⟩ <;> decide

/- ### Claim C5 -/

/-- C5 (counterexample): with an existing target resource and
`replace=False`, `save` does not fail with an error at all — it logs,
returns `None` and leaves the state unchanged (metadata.py lines 238-244
`return None`). -/
theorem save_no_replace_counterexample :
    save acceptAllCtx ⟨⟨"/d", true, [("foo-bar.json", FileContent.doc sampleDoc)]⟩, []⟩
      "foo-bar" (some sampleMd) false =
      (⟨⟨"/d", true, [("foo-bar.json", FileContent.doc sampleDoc)]⟩, []⟩, .ok none) ∧
    ∀ e : PyErr,
      (save acceptAllCtx ⟨⟨"/d", true, [("foo-bar.json", FileContent.doc sampleDoc)]⟩, []⟩
        "foo-bar" (some sampleMd) false).2 ≠ .error e := by
  refine ⟨rfl, ?_⟩
  intro e h
  rw [show (save acceptAllCtx ⟨⟨"/d", true, [("foo-bar.json", FileContent.doc sampleDoc)]⟩, []⟩
      "foo-bar" (some sampleMd) false).2 = .ok none from rfl] at h
  cases h

/-- C5 amended: for every name whose target resource already exists,
`save(name, document, replace=false)` performs no write and returns `None`
(no resource) with the state unchanged, rather than raising an
`AlreadyExists` error. -/
theorem save_no_replace_returns_none (ctx : StoreCtx) (fs : FS) (n : String) (md : Metadata)
    (hn : nameMatches n = true)
    (hw : fs.writable.isDir = true)
    (hre : containsFile fs.writable.files (n ++ ".json") = true) :
    save ctx fs n (some md) false = (fs, .ok none) := by
  have hne := nameMatches_ne_empty hn
  simp [save, if_neg hne, hn, hw, hre]

/-- Witness for the amended C5 at a concrete input. -/
theorem save_no_replace_returns_none_witness :
    save acceptAllCtx ⟨⟨"/d", true, [("my-runtime.json", FileContent.doc sampleDoc)]⟩, []⟩
      "my-runtime" (some sampleMd) false =
      (⟨⟨"/d", true, [("my-runtime.json", FileContent.doc sampleDoc)]⟩, []⟩, .ok none) :=
  save_no_replace_returns_none acceptAllCtx
    ⟨⟨"/d", true, [("my-runtime.json", FileContent.doc sampleDoc)]⟩, []⟩
    "my-runtime" sampleMd (by decide) rfl (by decide)

/- ### Claim C6 -/

/-- C6 (counterexample): a whitespace-only name is NOT rejected by `read`
before filesystem access — `if not name` only catches the empty string, so
`read(" ")` searches the directories and here even succeeds, returning the
document backed by the file " .json". -/
theorem read_whitespace_counterexample :
    read acceptAllCtx ⟨⟨"/d", true, [(" .json", FileContent.doc sampleDoc)]⟩, []⟩ " " =
      .ok ⟨some " ", some ⟨"/d", " .json"⟩, "x", "kfp", [], none⟩ := rfl

/-- C6 amended: the empty name is rejected by both `read` and `save` with
`ValueError` before any filesystem access (the result is the same for every
state and the state is unmodified); a whitespace-only nonempty name is
likewise rejected by `save` — through the identifier-rule check — before
any filesystem access, but `read` treats it as an ordinary name and
searches the filesystem for it. -/
theorem empty_and_whitespace_name_policy (ctx : StoreCtx) (fs : FS) (md : Option Metadata)
    (replace : Bool) (n : String)
    (hws : ∀ c ∈ n.data, c = ' ' ∨ c = '\t' ∨ c = '\n' ∨ c = '\r' ∨ c = '\x0b' ∨ c = '\x0c')
    (hne : n ≠ "") :
    read ctx fs "" = .error (.valueError "name-of-metadata-was-not-provided") ∧
    save ctx fs "" md replace = (fs, .error (.valueError "name-of-metadata-was-not-provided")) ∧
    save ctx fs n md replace =
      (fs, .error (.valueError "name-of-metadata-must-be-lowercase-alphanumeric")) := by
  have hnm : nameMatches n = false := by
    cases h : nameMatches n with
    | false => rfl
    | true =>
      exfalso
      obtain ⟨c, rest, hd, hc⟩ := nameMatches_head h
      have hcmem : c ∈ n.data := by
        rw [hd]
        exact List.mem_cons_self c rest
      rcases hws c hcmem with e | e | e | e | e | e <;> rw [e] at hc <;>
        exact absurd hc (by decide)
  exact ⟨rfl, rfl, by simp [save, hne, hnm]⟩

/-- Witness for the amended C6 at the whitespace-only name " ". -/
theorem empty_and_whitespace_name_policy_witness :
    read acceptAllCtx emptyFS "" =
      .error (.valueError "name-of-metadata-was-not-provided") ∧
    save acceptAllCtx emptyFS "" (some sampleMd) true =
      (emptyFS, .error (.valueError "name-of-metadata-was-not-provided")) ∧
    save acceptAllCtx emptyFS " " (some sampleMd) true =
      (emptyFS, .error (.valueError "name-of-metadata-must-be-lowercase-alphanumeric")) :=
  empty_and_whitespace_name_policy acceptAllCtx emptyFS (some sampleMd) true " "
    (by intro c hc; simp at hc; exact Or.inl hc) (by decide)

/- ### Claim C7 -/

/-- C7 (counterexample): `remove` on an EXISTING document whose backing
file lives only in a read-only extra search directory does not delete it
and does not return its path — `_get_resource` computes the path in the
writable directory, where `os.remove` raises `FileNotFoundError`. -/
theorem remove_extra_dir_counterexample :
    remove emptyCtx extraOnlyFS "doc" =
      (extraOnlyFS, .error (.ioError "no-such-file-or-directory")) := rfl

/-- C7 amended: `remove` of a name with no matching file in any existing
search directory never raises and returns nothing (idempotent no-op, also
when the namespace has no directory at all); `remove` of a document whose
backing file is in the writable directory — loaded without validation, so
the schema cache is never consulted and schema-invalid documents can be
removed — deletes the file and returns its path, after which `read` fails
with the not-found `KeyError`; but for a document found only in an extra
search directory `remove` raises an IO error (see the counterexample). -/
theorem remove_behavior :
    (∀ (ctx : StoreCtx) (fs : FS) (n : String),
      (∀ d ∈ allDirs fs, d.isDir = true → ∀ pr ∈ d.files, matchesName pr.1 n = false) →
      remove ctx fs n = (fs, .ok none)) ∧
    (∀ (ctx : StoreCtx) (fs : FS) (n : String) (j : DocJson)
        (rest : List (String × FileContent)),
      nameMatches n = true →
      fs.writable.isDir = true →
      (∀ d ∈ fs.extras, d.isDir = false) →
      fs.writable.files = (n ++ ".json", FileContent.doc j) :: rest →
      (∀ pr ∈ rest, matchesName pr.1 n = false) →
      j.display_name.isSome = true → j.schema_name.isSome = true → j.metadata.isSome = true →
      (remove ctx fs n).2 = .ok (some ⟨fs.writable.path, n ++ ".json"⟩) ∧
      (remove ctx fs n).1.writable.files = rest ∧
      read ctx (remove ctx fs n).1 n = .error (.keyError "metadata-was-not-found")) := by
  constructor
  · intro ctx fs n h
    have hl : ∃ msg, loadNamedResource ctx fs n false = .error (.keyError msg) := by
      unfold loadNamedResource
      by_cases hns : namespaceExists fs = true
      · rw [if_pos hns]
        exact ⟨_, loadNamedFromDirs_not_found h⟩
      · rw [if_neg hns]
        exact ⟨_, rfl⟩
    obtain ⟨msg, hl⟩ := hl
    simp [remove, hl]
  · intro ctx fs n j rest hn hw hex hfiles hrest hdnS hsnS hmdS
    have hne := nameMatches_ne_empty hn
    obtain ⟨dn, hdn⟩ := Option.isSome_iff_exists.mp hdnS
    obtain ⟨sn, hsn⟩ := Option.isSome_iff_exists.mp hsnS
    obtain ⟨props, hmd⟩ := Option.isSome_iff_exists.mp hmdS
    have hns : namespaceExists fs = true := by simp [namespaceExists, allDirs, hw]
    have hfind : findFirstMatch fs.writable.files n =
        some (n ++ ".json", FileContent.doc j) := by
      rw [hfiles]
      exact List.find?_cons_of_pos _ (matchesName_json hn)
    have hload : loadNamedResource ctx fs n false =
        .ok { name := some n, resource := some ⟨fs.writable.path, n ++ ".json"⟩,
              display_name := dn, schema_name := if sn = "" then DEFAULT_SCHEMA_NAME else sn,
              metadata := props, reason := none } := by
      unfold loadNamedResource
      rw [if_pos hns]
      show loadNamedFromDirs ctx (fs.writable :: fs.extras) n false = _
      simp [loadNamedFromDirs, hw, hfind, loadFromResource, validateStep, hdn, hsn, hmd,
        jsonBase_append hn]
    have hkey : containsFile fs.writable.files (n ++ ".json") = true := by
      rw [hfiles]
      simp [containsFile]
    have hremove : remove ctx fs n =
        (writableRemoveFile fs (n ++ ".json"),
          .ok (some ⟨fs.writable.path, n ++ ".json"⟩)) := by
      simp [remove, hload, getResource, hw, hkey]
    have hnorest : ∀ pr ∈ rest, ¬ pr.1 = (n ++ ".json") := by
      intro pr hpr he
      have h2 := hrest pr hpr
      rw [he, matchesName_json hn] at h2
      cases h2
    have hfiles2 : (remove ctx fs n).1.writable.files = rest := by
      rw [hremove]
      show removeFileEntries fs.writable.files (n ++ ".json") = rest
      rw [hfiles]
      unfold removeFileEntries
      rw [List.filter_cons]
      simp only [beq_self_eq_true, Bool.not_true, Bool.false_eq_true, if_false]
      exact removeFileEntries_of_no_key hnorest
    refine ⟨by rw [hremove], hfiles2, ?_⟩
    have hnotfound : ∀ d ∈ allDirs (remove ctx fs n).1, d.isDir = true →
        ∀ pr ∈ d.files, matchesName pr.1 n = false := by
      intro d hd
      rcases List.mem_cons.mp hd with hdw | hdx
      · intro _ pr hpr
        rw [hdw] at hpr
        have : (remove ctx fs n).1.writable.files = rest := hfiles2
        rw [this] at hpr
        exact hrest pr hpr
      · intro hdir
        rw [hremove] at hdx
        have : d.isDir = false := hex d hdx
        rw [this] at hdir
        cases hdir
    have hns2 : namespaceExists (remove ctx fs n).1 = true := by
      rw [hremove]
      simp [namespaceExists, allDirs, hw]
    simp [read, if_neg hne, loadNamedResource, hns2, loadNamedFromDirs_not_found hnotfound]

/-- Witness for the amended C7: removing a missing name is a no-op, and
removing a schema-invalid document (its "kfp" schema rejects everything)
in the writable directory deletes the file, returns its path and makes a
subsequent read fail with the not-found error. -/
theorem remove_behavior_witness :
    remove rejectAllCtx ⟨⟨"/d", true, []⟩, []⟩ "ghost" = (⟨⟨"/d", true, []⟩, []⟩, .ok none) ∧
    (remove rejectAllCtx ⟨⟨"/d", true, [("my-runtime.json", FileContent.doc sampleDoc)]⟩, []⟩
        "my-runtime").2 = .ok (some ⟨"/d", "my-runtime.json"⟩) ∧
    read rejectAllCtx
      (remove rejectAllCtx ⟨⟨"/d", true, [("my-runtime.json", FileContent.doc sampleDoc)]⟩, []⟩
        "my-runtime").1 "my-runtime" = .error (.keyError "metadata-was-not-found") := by
  have h1 := remove_behavior.1 rejectAllCtx ⟨⟨"/d", true, []⟩, []⟩ "ghost"
    (by intro d hd hdir pr hpr; simp [allDirs] at hd; rw [hd] at hpr; cases hpr)
  have h2 := remove_behavior.2 rejectAllCtx
    ⟨⟨"/d", true, [("my-runtime.json", FileContent.doc sampleDoc)]⟩, []⟩
    "my-runtime" sampleDoc [] (by decide) rfl (by simp) rfl (by simp) rfl rfl rfl
  exact ⟨h1, h2.1, h2.2.2⟩

/- ### Claim C8 -/

/-- C8: in the bulk loader, a document failing schema validation is
excluded with `include_invalid=false`; with `include_invalid=true` it is
included, with its `reason` set to the non-empty class name
"ValidationError"; and an entry whose load raises any error at all
(malformed JSON, missing required keys, a missing schema) is dropped
silently in both modes. -/
theorem bulk_listing_validation_policy (ctx : StoreCtx) (p f sn : String) (j : DocJson)
    (sch : Schema) (pre post : List (String × FileContent))
    (hj : endsWithJson f = true)
    (hsn : j.schema_name = some sn) (hsne : sn ≠ "")
    (hsch : getSchema ctx sn = .ok sch)
    (hbad : sch.check j = false)
    (hdnS : j.display_name.isSome = true) (hmdS : j.metadata.isSome = true) :
    loadDirAll ctx p (pre ++ (f, FileContent.doc j) :: post) true false =
      loadDirAll ctx p pre true false ++ loadDirAll ctx p post true false ∧
    (∃ m, loadDirAll ctx p (pre ++ (f, FileContent.doc j) :: post) true true =
      loadDirAll ctx p pre true true ++ m :: loadDirAll ctx p post true true ∧
      m.reason = some "ValidationError" ∧ some "ValidationError" ≠ (none : Option String)) ∧
    (∀ (c : FileContent) (ii : Bool) (e : PyErr),
      loadFromResource ctx ⟨p, f⟩ c true ii = .error e →
      loadDirAll ctx p (pre ++ (f, c) :: post) true ii =
        loadDirAll ctx p pre true ii ++ loadDirAll ctx p post true ii) := by
  obtain ⟨dn, hdn⟩ := Option.isSome_iff_exists.mp hdnS
  obtain ⟨props, hmd⟩ := Option.isSome_iff_exists.mp hmdS
  refine ⟨?_, ?_, ?_⟩
  · have h1 : loadFromResource ctx ⟨p, f⟩ (FileContent.doc j) true false =
        .error (.validationError "schema-validation-failed") := by
      simp [loadFromResource, validateStep, hsn, hsne, hsch, hbad]
    simp [loadDirAll, List.filterMap_append, List.filterMap_cons, hj, h1, Except.toOption]
  · have h2 : loadFromResource ctx ⟨p, f⟩ (FileContent.doc j) true true =
        .ok { name := some (jsonBase f), resource := some ⟨p, f⟩, display_name := dn,
              schema_name := if sn = "" then DEFAULT_SCHEMA_NAME else sn,
              metadata := props, reason := some "ValidationError" } := by
      simp [loadFromResource, validateStep, hsn, hsne, hsch, hbad, hdn, hmd]
    refine ⟨{ name := some (jsonBase f), resource := some ⟨p, f⟩, display_name := dn,
              schema_name := if sn = "" then DEFAULT_SCHEMA_NAME else sn,
              metadata := props, reason := some "ValidationError" }, ?_, rfl, by simp⟩
    simp [loadDirAll, List.filterMap_append, List.filterMap_cons, hj, h2, Except.toOption]
  · intro c ii e he
    simp [loadDirAll, List.filterMap_append, List.filterMap_cons, hj, he, Except.toOption]

/-- Witness for C8: a document rejected by its schema is absent from the
non-tolerant bulk listing, present with reason "ValidationError" in the
tolerant one; a malformed file is dropped in both modes. -/
theorem bulk_listing_validation_policy_witness :
    loadDirAll rejectAllCtx "/d" [("bad.json", FileContent.doc sampleDoc)] true false = [] ∧
    (∃ m, loadDirAll rejectAllCtx "/d" [("bad.json", FileContent.doc sampleDoc)] true true =
      [m] ∧ m.reason = some "ValidationError") ∧
    loadDirAll rejectAllCtx "/d" [("bad.json", FileContent.malformed)] true true = [] ∧
    loadDirAll rejectAllCtx "/d" [("bad.json", FileContent.malformed)] true false = [] := by
  have h := bulk_listing_validation_policy rejectAllCtx "/d" "bad.json" "kfp" sampleDoc
    ⟨fun _ => false⟩ [] [] (by decide) rfl (by decide) rfl rfl rfl rfl
  obtain ⟨h1, ⟨m, hm, hr, _⟩, h3⟩ := h
  refine ⟨by simpa using h1, ⟨m, by simpa using hm, hr⟩, ?_, ?_⟩
  · simpa using h3 FileContent.malformed true (.jsonDecodeError "Expecting value") rfl
  · simpa using h3 FileContent.malformed false (.jsonDecodeError "Expecting value") rfl

/- ### Claim C9 -/

/-- C9: rollback in `save` is triggered only by `ValidationError` from the
post-write re-load; when the re-load fails because the document's schema is
absent from the cache (`SchemaManager.get_schema` raising `KeyError`), the
error propagates out of `save` and no cleanup happens — the just-written
file, and the directory even when this very call created it, stay on
disk. -/
theorem save_schema_missing_no_cleanup (ctx : StoreCtx) (fs : FS) (n : String) (md : Metadata)
    (hn : nameMatches n = true)
    (hsn : md.schema_name ≠ "")
    (hex : ∀ d ∈ fs.extras, d.isDir = false)
    (hmiss : lookupStr ctx.schemas md.schema_name = none) :
    (save ctx fs n (some md) true).2 = .error (.keyError "schema-was-not-found") ∧
    (save ctx fs n (some md) true).1.writable.isDir = true ∧
    containsFile (save ctx fs n (some md) true).1.writable.files (n ++ ".json") = true := by
  have hloadErr : ∀ p : String,
      loadFromResource ctx ⟨p, n ++ ".json"⟩ (FileContent.doc (md.to_dict true)) true false =
        .error (.keyError "schema-was-not-found") := by
    intro p
    simp [loadFromResource, validateStep, Metadata.to_dict, hsn, getSchema, hmiss]
  cases hw : fs.writable.isDir with
  | true =>
    have hout := @save_steps_existing ctx fs n md hn hw hex
    refine ⟨?_, ?_, ?_⟩
    · rw [hout]; simp only [hloadErr]
    · rw [hout]
      simp only [hloadErr]
      have h2 :
          (if containsFile fs.writable.files (n ++ ".json") then
            writableRemoveFile fs (n ++ ".json") else fs).writable.isDir = true := by
        by_cases h : containsFile fs.writable.files (n ++ ".json") <;> simp [h, hw]
      simpa using h2
    · rw [hout]
      simp only [hloadErr]
      simp [containsFile]
  | false =>
    have hout := @save_steps_new ctx fs n md hn hw hex
    refine ⟨?_, ?_, ?_⟩
    · rw [hout]; simp only [hloadErr]
    · rw [hout]; simp only [hloadErr]; rfl
    · rw [hout]
      simp only [hloadErr]
      simp [containsFile]

/-- Witness for C9: saving into a store with an empty schema cache — the
`KeyError` escapes and the freshly created directory still holds the
file. -/
theorem save_schema_missing_no_cleanup_witness :
    (save emptyCtx emptyFS "my-runtime" (some sampleMd) true).2 =
      .error (.keyError "schema-was-not-found") ∧
    (save emptyCtx emptyFS "my-runtime" (some sampleMd) true).1.writable.isDir = true ∧
    containsFile (save emptyCtx emptyFS "my-runtime" (some sampleMd) true).1.writable.files
      "my-runtime.json" = true :=
  save_schema_missing_no_cleanup emptyCtx emptyFS "my-runtime" sampleMd
    (by decide) (by decide) (by simp [emptyFS]) rfl

/- ### Claim C10 -/

/-- C10: `get_all_metadata_summary(include_invalid)` returns the full list
of loaded `Metadata` objects — the name/display-name/location summary
mapping it builds is discarded — and for `include_invalid=false` its value
is exactly `get_all()`'s. -/
theorem get_all_metadata_summary_returns_list (ctx : StoreCtx) (fs : FS) (ii : Bool) :
    get_all_metadata_summary ctx fs ii = loadAllResources ctx fs true ii ∧
    get_all_metadata_summary ctx fs false = get_all ctx fs := by
  constructor
  · unfold get_all_metadata_summary
    cases h : loadAllResources ctx fs true ii <;> simp [Except.map]
  · unfold get_all_metadata_summary get_all
    cases h : loadAllResources ctx fs true false <;> simp [Except.map]

end ElyraMeta
